import Mathlib

/-!
# Verification of the illume directive interpreter, conversation builder,
# request assembler and streaming-response normalizer

This file is a shallow embedding, in Lean 4, of the core of the `illume`
program (a Go text filter that turns a directive-annotated plain-text
document into an HTTP request against an LLM API and re-linearizes the
streaming response).  The embedding follows the Go source line by line:

* strings are modelled as `List Char` (the program treats its input as
  byte text; all directive syntax is ASCII, so `Char`-level splitting at
  ASCII delimiters coincides with the Go byte-level `cut`);
* Go maps (`map[string]interface{}`, `map[string]bool`,
  `map[string]string`) are modelled as association lists with
  set/delete/lookup operations (`aset`/`adel`/`alook`); only lookups are
  observable, so representation order is irrelevant;
* external collaborators that the specification places out of scope
  (file reads for `!context`/`!reddit`/`!github` and profile files, the
  `encoding/json` parser for `json.Unmarshal`, `os.ExpandEnv`, and the
  `ILLUME_PROFILE` environment variable) are oracle parameters in an
  `Env` structure, universally quantified in every theorem;
* the recursive profile interpreter (`ChatState.Load`, which may recurse
  forever on cyclic profile inclusions, exactly as the Go code may) is
  modelled with an explicit fuel parameter; theorems quantify over fuel.

Functions keep the names of the Go functions they embed.  The primary
source is the current revision of `illume.go`; the `ToolRev` namespace
embeds the tool-role revision of the conversation builder from the
earlier program revision that supports a `!tool` directive.
-/

set_option linter.unusedVariables false
set_option linter.dupNamespace false

/-- Convert a Lean string literal to the `List Char` representation used
throughout this development. -/
def str (s : String) : List Char := s.data

/-! ## Basic string utilities from the source -/

/-- Embeds Go `cut(s, b)`: split `s` at the first occurrence of byte `b`,
returning the part before, the part after, and whether `b` was found.
When `b` is absent it returns `(s, "", false)`. -/
def cut : List Char → Char → List Char × List Char × Bool
  | [], _ => ([], [], false)
  | c :: cs, b =>
    if c = b then ([], cs, true)
    else
      let r := cut cs b
      (c :: r.1, r.2.1, r.2.2)


/-- Characters trimmed by `strings.Trim(s, "\r\n")`. -/
def isRN (c : Char) : Bool := c == '\r' || c == '\n'

/-- Embeds `strings.Trim(s, "\r\n")`: remove leading and trailing carriage
returns and newlines. -/
def trimRN (s : List Char) : List Char :=
  ((s.dropWhile isRN).reverse.dropWhile isRN).reverse

/-- ASCII whitespace, as recognized by `strings.TrimSpace` (the program
only ever trims ASCII text). -/
def isSpaceG (c : Char) : Bool :=
  c == ' ' || c == '\t' || c == '\n' || c == '\x0b' || c == '\x0c' || c == '\r'

/-- Embeds `strings.TrimSpace`. -/
def trimSpace (s : List Char) : List Char :=
  ((s.dropWhile isSpaceG).reverse.dropWhile isSpaceG).reverse

/-- Embeds `strings.HasPrefix`. -/
def hasPrefixL (p s : List Char) : Bool := p.isPrefixOf s

/-- Embeds `strings.HasSuffix`. -/
def hasSuffixL (p s : List Char) : Bool := p.isSuffixOf s

/-- Embeds `strings.Fields`: split around runs of whitespace. -/
def fields : List Char → List (List Char)
  | [] => []
  | c :: cs =>
    if isSpaceG c then fields cs
    else (c :: cs.takeWhile (fun x => !isSpaceG x)) ::
      fields (cs.dropWhile (fun x => !isSpaceG x))
termination_by s => s.length
decreasing_by
  · simp only [List.length_cons]
    exact Nat.lt_succ_of_le (Nat.le_refl _)
  · simp only [List.length_cons]
    exact Nat.lt_succ_of_le (List.dropWhile_suffix _).sublist.length_le

/-! ## Association lists standing in for Go maps -/

/-- Go map lookup `m[k]` (as an `Option`). -/
def alook {α : Type} (l : List (List Char × α)) (k : List Char) : Option α :=
  match l.find? (fun kv => kv.1 = k) with
  | some kv => some kv.2
  | none => none

/-- Go map assignment `m[k] = v`. -/
def aset {α : Type} (l : List (List Char × α)) (k : List Char) (v : α) :
    List (List Char × α) :=
  l.filter (fun kv => kv.1 ≠ k) ++ [(k, v)]

/-- Go map deletion `delete(m, k)`. -/
def adel {α : Type} (l : List (List Char × α)) (k : List Char) :
    List (List Char × α) :=
  l.filter (fun kv => kv.1 ≠ k)






/-! ## The JSON data model

Values decoded by `json.Unmarshal` and re-encoded by `marshal`.  Numbers
are modelled as integers: every number appearing in a verified run is
integral, and the JSON decoding itself is an oracle (see `Env`), so no
theorem depends on float formatting. -/

inductive JValue where
  | str (s : List Char)
  | num (n : Int)
  | bool (b : Bool)
  | null
  | arr (xs : List JValue)
  | obj (kvs : List (List Char × JValue))

/-- A Go `Message` record (`{role, content}` with JSON tags `role` and
`content`). -/
structure Message where
  Role : List Char
  Content : List Char
deriving DecidableEq, Repr

/-- A value stored in the request body mapping (`map[string]interface{}`):
either a JSON value or the finalized message list installed by the
request assembler. -/
inductive DataVal where
  | jv (v : JValue)
  | msgs (l : List Message)

/-- Two-digit lowercase hex, for JSON control-character escapes. -/
def hex2 (n : Nat) : List Char :=
  let d := fun m => if m < 10 then Char.ofNat (48 + m) else Char.ofNat (87 + m)
  [d (n / 16 % 16), d (n % 16)]

/-- JSON string escaping as produced by Go `encoding/json` with
`SetEscapeHTML(false)`. -/
def escChar (c : Char) : List Char :=
  if c = '"' then ['\\', '"']
  else if c = '\\' then ['\\', '\\']
  else if c = '\n' then ['\\', 'n']
  else if c = '\r' then ['\\', 'r']
  else if c = '\t' then ['\\', 't']
  else if c.toNat < 32 then '\\' :: 'u' :: '0' :: '0' :: hex2 c.toNat
  else [c]

/-- JSON encoding of a string. -/
def encStr (s : List Char) : List Char :=
  '"' :: (s.map escChar).flatten ++ ['"']

mutual

/-- JSON encoding of a `JValue`, as Go `encoding/json` renders it. -/
def jsonEncode : JValue → List Char
  | .str s => encStr s
  | .num n => (toString n).data
  | .bool b => if b then str "true" else str "false"
  | .null => str "null"
  | .arr xs => '[' :: jsonEncodeList xs ++ [']']
  | .obj kvs => '\x7b' :: jsonEncodeObj kvs ++ ['\x7d']

def jsonEncodeList : List JValue → List Char
  | [] => []
  | [x] => jsonEncode x
  | x :: y :: xs => jsonEncode x ++ ',' :: jsonEncodeList (y :: xs)

def jsonEncodeObj : List (List Char × JValue) → List Char
  | [] => []
  | [kv] => encStr kv.1 ++ ':' :: jsonEncode kv.2
  | kv :: kv2 :: kvs => encStr kv.1 ++ ':' :: jsonEncode kv.2 ++
      ',' :: jsonEncodeObj (kv2 :: kvs)

end

/-- JSON encoding of a message, field tags `role` and `content`. -/
def encMsg (m : Message) : List Char :=
  '\x7b' :: str "\"role\":" ++ encStr m.Role ++ str ",\"content\":" ++
    encStr m.Content ++ ['\x7d']

def encMsgList : List Message → List Char
  | [] => []
  | [m] => encMsg m
  | m :: m2 :: ms => encMsg m ++ ',' :: encMsgList (m2 :: ms)

/-- JSON encoding of a request-body value. -/
def encodeData : DataVal → List Char
  | .jv v => jsonEncode v
  | .msgs l => '[' :: encMsgList l ++ [']']

/-- Embeds Go `marshal`: `json.Encoder.Encode` with HTML escaping off.
`Encode` appends a trailing newline to the encoded value. -/
def marshal (v : DataVal) : List Char := encodeData v ++ ['\n']

/-! ## The interpolator -/

inductive IErr where
  | unmatched
  | missingKey (k : List Char)
deriving DecidableEq, Repr

/-- The Go type assertion `value.(string)` on an `interface{}` value. -/
def asGoString : DataVal → Option (List Char)
  | .jv (.str s) => some s
  | _ => none

/-- What `interpolate` writes for one substituted value: the raw string
for string values, otherwise the `marshal` encoding (which carries the
encoder's trailing newline). -/
def renderVal (v : DataVal) : List Char :=
  match asGoString v with
  | some s => s
  | none => marshal v

/-- Fuel-indexed core of `interpolate`; the fuel is strictly larger than
the number of loop iterations whenever it exceeds the template length
(each iteration consumes at least the `\x7b` of one placeholder). -/
def interpolateF : Nat → List Char → List (List Char × DataVal) →
    Except IErr (List Char)
  | 0, _, _ => .error .unmatched
  | fuel + 1, s, vars =>
    let c1 := cut s '\x7b'
    let pre := c1.1
    if c1.2.2 then
      let c2 := cut c1.2.1 '\x7d'
      let key := c2.1
      if c2.2.2 then
        match alook vars key with
        | none => .error (.missingKey key)
        | some v =>
          match interpolateF fuel c2.2.1 vars with
          | .ok t => .ok (pre ++ renderVal v ++ t)
          | .error e => .error e
      else .error .unmatched
    else .ok pre

/-- Embeds Go `interpolate(s, vars)`: replace every `\x7bkey\x7d` span with
the mapping's value (written raw if it is a string, JSON-encoded via
`marshal` otherwise); fail with an unmatched-brace error if a `\x7b` has
no later `\x7d`, or a missing-key error if a referenced key is absent.
The fuel `s.length + 1` never runs out (see `interpolateF_irrel`). -/
def interpolate (s : List Char) (vars : List (List Char × DataVal)) :
    Except IErr (List Char) :=
  interpolateF (s.length + 1) s vars


/-! ## The conversation builder (current revision of `illume.go`) -/

/-- Embeds the Go `Builder` struct: finalized messages, the current role
and the in-progress content buffer. -/
structure Builder where
  Messages : List Message
  Role : List Char
  Content : List Char
deriving Repr

/-- The zero `Builder{}` value. -/
def Builder.empty : Builder := ⟨[], [], []⟩

/-- Embeds `Builder.Append`: add a line plus newline to the in-progress
segment. -/
def Builder.Append (b : Builder) (line : List Char) : Builder :=
  { b with Content := b.Content ++ line ++ ['\n'] }

/-- Embeds `Builder.New(role)`: trim the in-progress segment; if non-empty,
finalize it under the previous role (defaulting to `system`); switch to the
new role with an empty buffer.  Returns the updated builder and the Go
return value (the full message list; the Go `[]Message{}` special case for
an empty list is the same value as the nil list). -/
def Builder.New (b : Builder) (role : List Char) : Builder × List Message :=
  let content := trimRN b.Content
  let msgs :=
    if content = [] then b.Messages
    else b.Messages ++
      [{ Role := if b.Role = [] then str "system" else b.Role,
         Content := content }]
  (⟨msgs, role, []⟩, msgs)

/-! ## The conversation builder of the tool-role revision
(`Builder.New` and the `!tool` directive of the earlier program revision
that supports tool calling). -/

namespace ToolRev

/-- A `ToolCall` of the tool-role revision. -/
structure ToolCall where
  Name : List Char
  Arguments : List Char
deriving DecidableEq, Repr

/-- A `Function` wrapper of the tool-role revision. -/
structure Function where
  Function : ToolCall
deriving DecidableEq, Repr

/-- A `Message` of the tool-role revision (`{role, content, tool_calls}`). -/
structure Message where
  Role : List Char
  Content : List Char
  ToolCalls : List Function
deriving DecidableEq, Repr

/-- The `Builder` of the tool-role revision. -/
structure Builder where
  Messages : List Message
  Role : List Char
  Content : List Char
deriving Repr

/-- Embeds `Builder.New(role)` of the tool-role revision: if the previous
role is `tool`, append the closing `</tool_response>` marker to the buffer
first; trim; finalize a non-empty segment under the previous role
(default `system`); if the NEW role is `tool`, additionally append a
synthetic empty assistant message; switch to the new role. -/
def Builder.New (b : Builder) (role : List Char) : Builder × List Message :=
  let content0 :=
    if b.Role = str "tool" then b.Content ++ str "</tool_response>"
    else b.Content
  let content := trimRN content0
  let msgs1 :=
    if content = [] then b.Messages
    else b.Messages ++
      [{ Role := if b.Role = [] then str "system" else b.Role,
         Content := content, ToolCalls := [] }]
  let msgs2 :=
    if role = str "tool" then
      msgs1 ++ [{ Role := str "assistant", Content := [], ToolCalls := [] }]
    else msgs1
  (⟨msgs2, role, []⟩, msgs2)

/-- Embeds the `!tool` directive handler of the tool-role revision
(`s.Builder.New("tool")` followed by
`s.Builder.Content.WriteString("<tool_response>\n")`): finalize the
current segment under the `tool` role, then open the new segment with a
leading tool-response marker. -/
def toolDirective (b : Builder) : Builder :=
  let b1 := (b.New (str "tool")).1
  { b1 with Content := b1.Content ++ str "<tool_response>\n" }

end ToolRev

/-! ## Interpreter state -/

/-- Operation modes (`TypeChat = iota; TypeCompletion; TypeInfill;
TypeFim`). -/
def TypeChat : Nat := 0
def TypeCompletion : Nat := 1
def TypeInfill : Nat := 2
def TypeFim : Nat := 3

/-- `tagmatch` results (`TagNone = iota; TagOpen; TagClose`). -/
def TagNone : Nat := 0
def TagOpen : Nat := 1
def TagClose : Nat := 2

/-- Embeds Go `tagmatch(s, tag)`: recognize `<tag>` (open) and `</tag>`
(close) lines for the `!exclude` mechanism. -/
def tagmatch (s tag : List Char) : Nat :=
  if s.length > 2 ∧ s.head? = some '<' ∧ s.getLast? = some '>' then
    if s.length = tag.length + 2 then
      if (s.drop 1).take tag.length = tag then TagOpen else TagNone
    else if s.length = tag.length + 3 then
      if (s.drop 2).take tag.length = tag ∧ (s.drop 1).head? = some '/' then
        TagClose
      else TagNone
    else TagNone
  else TagNone

/-- Embeds the Go `ChatState` struct (current revision). -/
structure ChatState where
  Profile : List Char
  Api : List Char
  FimTmpl : List Char
  Prepend : List Char
  Exclude : List Char
  Builder : Builder
  Data : List (List Char × DataVal)
  UserSet : List (List Char × Bool)
  Headers : List (List Char × List Char)
  Typ : Nat
  Debug : Bool
  Stats : Bool
  Excluding : Bool

/-- `InvalidUrl`, the sentinel meaning "no API URL set yet". -/
def InvalidUrl : List Char := str "http://invalid./"

/-- `DefaultProfile`. -/
def DefaultProfile : List Char := str "llama.cpp"

/-- Embeds `NewChatState()`: the fixed initial request state. -/
def NewChatState : ChatState :=
  { Profile := [], Api := InvalidUrl, FimTmpl := [], Prepend := [],
    Exclude := [], Builder := Builder.empty,
    Data := [(str "max_tokens", .jv (.num 2000))],
    UserSet := [],
    Headers := [(str "content-type", str "application/json")],
    Typ := TypeChat, Debug := false, Stats := false, Excluding := false }

/-- External collaborators of the directive interpreter, exactly the
boundary the specification marks out of scope: file/directory embedding
(`addcontext`, `emitreddit`, `emitgithub` read the filesystem and append
formatted text into the in-progress segment, possibly partially before an
error), profile file resolution (`ioutil.ReadFile` plus the
executable-relative `.profile` search), the `encoding/json` value parser
used by `json.Unmarshal`, `os.ExpandEnv`, and the `ILLUME_PROFILE`
environment variable.  Each embedding oracle returns the text appended to
the builder buffer and whether the call succeeded. -/
structure Env where
  /-- `addcontext(&s.Builder.Content, line)`. -/
  addctx : List Char → List Char × Bool
  /-- `emitreddit(&s.Builder.Content, path, withcomments)`. -/
  reddit : List Char → Bool → List Char × Bool
  /-- `emitgithub(&s.Builder.Content, args)`. -/
  github : List (List Char) → List Char × Bool
  /-- Profile-file resolution: the body text of a profile that is not in
  the built-in table, or `none` if no file resolves. -/
  resolve : List Char → Option (List Char)
  /-- `json.Unmarshal` of a byte slice into an `interface{}`. -/
  jparse : List Char → Option JValue
  /-- `os.ExpandEnv`. -/
  expandEnv : List Char → List Char
  /-- `os.Getenv("ILLUME_PROFILE")`. -/
  illumeProfile : List Char

/-- The built-in `Profiles` table of the current revision. -/
def Profiles : List (List Char × List (List Char)) := [
  (str "llama.cpp", [
    str "!api http://localhost:8080/",
    str "!:cache_prompt true",
    str "!:stop [\"<|im_end|>\"]"]),
  (str "huggingface.co", [
    str "!api https://api-inference.huggingface.co/models/\x7bmodel\x7d/v1",
    str "!>authorization Bearer $HF_TOKEN",
    str "!>x-use-cache false",
    str "!:model meta-llama/Llama-3.3-70B-Instruct"]),
  (str "qwen3", [
    str "/no_think",
    str "!:temperature 0.7",
    str "!:min_p 0.0",
    str "!:top_p 0.8",
    str "!:top_k 20",
    str "!exclude think"]),
  (str "qwen3-think", [
    str "!:temperature 0.6",
    str "!:min_p 0.0",
    str "!:top_p 0.95",
    str "!:top_k 20",
    str "!:max_tokens 16384",
    str "!exclude think"]),
  (str "qwen3-instruct", [
    str "!:temperature 0.7",
    str "!:min_p 0.0",
    str "!:top_p 0.8",
    str "!:top_k 20",
    str "!:max_tokens 16384"]),
  (str "gemma-3", [
    str "!:temperature 1.0",
    str "!:top_k 64",
    str "!:top_p 0.95",
    str "!:min_p 0.01",
    str "!:repeat_penalty 1.0"]),
  (str "gemini", [
    str "!api https://generativelanguage.googleapis.com/v1beta",
    str "!>authorization Bearer $GEMINI_API_KEY",
    str "!:model gemini-2.5-pro-exp-03-25",
    str "!:max_tokens 10000"]),
  (str "claude", [
    str "!api \"https://api.anthropic.com/v1/messages\"",
    str "!>anthropic-version 2023-06-01",
    str "!>x-api-key $ANTHROPIC_API_KEY",
    str "!:model claude-opus-4-0",
    str "!:max_tokens 10000"]),
  (str "claude-extended", [
    str "!profile claude",
    str "!:max_tokens 20000",
    str "!:thinking \x7b\"type\": \"enabled\", \"budget_tokens\": 10000\x7d",
    str "!exclude think"]),
  (str "openai", [
    str "!api https://api.openai.com/v1",
    str "!>authorization Bearer $OPENAI_API_KEY",
    str "!:model gpt-4.1-mini",
    str "!:max_tokens",
    str "!:max_completion_tokens 10000"]),
  (str "fim:deepseek", [
    str "!infill <｜begin▁of▁sentence｜><｜fim▁begin｜>\x7bprefix\x7d<｜fim▁hole｜>\x7bsuffix\x7d<｜fim▁end｜>"]),
  (str "fim:qwen", [
    str "!infill <|fim_prefix|>\x7bprefix\x7d<|fim_suffix|>\x7bsuffix\x7d<|fim_middle|>"]),
  (str "fim:granite", [
    str "!infill <fim_prefix>\x7bprefix\x7d<fim_suffix>\x7bsuffix\x7d<fim_middle>"]),
  (str "fim:mistral", [
    str "!infill [SUFFIX]\x7bsuffix\x7d[PREFIX]\x7bprefix\x7d"]),
  (str "fim:codellama", [
    str "!infill  <PRE> \x7bprefix\x7d <SUF>\x7bsuffix\x7d <MID>",
    str "!:stop [\"<EOT>\"]"])]

/-- Profile body resolution inside `LoadProfile`: the built-in table
first (lines joined, each with a trailing newline), then the file system
(the oracle covers `ReadFile` and the executable-relative search). -/
def resolveProfileBody (env : Env) (profile : List Char) :
    Option (List Char) :=
  match alook Profiles profile with
  | some lines => some (lines.foldr (fun l acc => l ++ '\n' :: acc) [])
  | none => env.resolve profile

/-! ## The directive interpreter -/

/-- How one interpreted line affects control flow in `Load`. -/
inductive StepRes where
  /-- Proceed to the next line. -/
  | cont (s : ChatState)
  /-- `!end`: stop interpreting, successfully. -/
  | halt (s : ChatState)
  /-- An error aborts the whole `Load`. -/
  | fail (s : ChatState)
  /-- `!profile`: recursively load the named profile, then continue. -/
  | prof (s : ChatState) (name : List Char)

/-- The state carried by a `StepRes`. -/
def StepRes.state : StepRes → ChatState
  | .cont s => s
  | .halt s => s
  | .fail s => s
  | .prof s _ => s

/-- The body of the `!:` handler once the override guard has passed:
trim the value; empty deletes the key; otherwise store the decoded JSON
value, or the raw string when `json.Unmarshal` fails; finally record
whether this write happened at depth 0. -/
def applyData (env : Env) (s : ChatState) (key args0 : List Char)
    (depth : Nat) : ChatState :=
  let args := trimSpace args0
  let data :=
    if args = [] then adel s.Data key
    else
      match env.jparse args with
      | some v => aset s.Data key (.jv v)
      | none => aset s.Data key (.jv (.str args))
  { s with Data := data, UserSet := aset s.UserSet key (depth == 0) }

/-- One iteration of the `ChatState.Load` line loop: the `!exclude`
tag-skipping check followed by the directive dispatch chain, in source
order.  `line` is one newline-free line; `command`/`args` split at the
first space. -/
def lineStep (env : Env) (s : ChatState) (line : List Char) (depth : Nat) :
    StepRes :=
  if s.Exclude ≠ [] ∧ s.Excluding then
    .cont { s with Excluding := tagmatch line s.Exclude != TagClose }
  else if s.Exclude ≠ [] ∧ ¬s.Excluding ∧ tagmatch line s.Exclude = TagOpen then
    .cont { s with Excluding := true }
  else if hasPrefixL (str "!!") line then
    .cont { s with Builder := s.Builder.Append (line.drop 1) }
  else if (cut line ' ').1 = str "!profile" then
    .prof s (trimSpace (cut line ' ').2.1)
  else if (cut line ' ').1 = str "!debug" then
    .cont { s with Debug := true }
  else if (cut line ' ').1 = str "!stats" then
    .cont { s with Stats := true }
  else if (cut line ' ').1 = str "!prepend" then
    let v :=
      if (cut line ' ').2.1.length > 1 ∧ (cut line ' ').2.1.head? = some '"' then
        match env.jparse (cut line ' ').2.1 with
        | some (.str u) => u
        | _ => (cut line ' ').2.1
      else (cut line ' ').2.1
    .cont { s with Prepend := v }
  else if (cut line ' ').1 = str "!completion" then
    .cont { s with Typ := TypeCompletion }
  else if (cut line ' ').1 = str "!context" then
    let r := env.addctx line
    let s1 := { s with Builder :=
      { s.Builder with Content := s.Builder.Content ++ r.1 } }
    if r.2 then .cont s1 else .fail s1
  else if (cut line ' ').1 = str "!reddit" then
    let r := env.reddit (trimSpace (cut line ' ').2.1) true
    let s1 := { s with Builder :=
      { s.Builder with Content := s.Builder.Content ++ r.1 } }
    if r.2 then .cont s1 else .fail s1
  else if (cut line ' ').1 = str "!reddit!" then
    let r := env.reddit (trimSpace (cut line ' ').2.1) false
    let s1 := { s with Builder :=
      { s.Builder with Content := s.Builder.Content ++ r.1 } }
    if r.2 then .cont s1 else .fail s1
  else if (cut line ' ').1 = str "!github" then
    let r := env.github ((fields line).drop 1)
    let s1 := { s with Builder :=
      { s.Builder with Content := s.Builder.Content ++ r.1 } }
    if r.2 then .cont s1 else .fail s1
  else if (cut line ' ').1 = str "!note" then
    .cont s
  else if (cut line ' ').1 = str "!exclude" then
    .cont { s with Exclude := trimSpace (cut line ' ').2.1 }
  else if (cut line ' ').1 = str "!begin" then
    .cont { s with Builder := Builder.empty }
  else if (cut line ' ').1 = str "!end" then
    .halt s
  else if (cut line ' ').1 = str "!api" then
    .cont { s with Api :=
      if s.Api = InvalidUrl ∨ depth = 0 then trimSpace (cut line ' ').2.1 else s.Api }
  else if (cut line ' ').1 = str "!assistant" ∨ (cut line ' ').1 = str "!user" then
    .cont { s with Builder := (s.Builder.New ((cut line ' ').1.drop 1)).1 }
  else if (cut line ' ').1 = str "!infill" then
    if (cut line ' ').2.1 = [] then
      .cont { s with
        Typ := if s.FimTmpl ≠ [] then TypeFim else TypeInfill,
        Builder := (s.Builder.New (str "infill")).1 }
    else
      .cont { s with FimTmpl := (cut line ' ').2.1 }
  else if (cut line ' ').1.length > 2 ∧ (cut line ' ').1.take 2 = str "!>" then
    let key := (cut line ' ').1.drop 2
    let a := trimSpace (cut line ' ').2.1
    let hs :=
      if a = [] then adel s.Headers key
      else aset s.Headers key (env.expandEnv a)
    .cont { s with Headers := hs }
  else if (cut line ' ').1.length > 2 ∧ (cut line ' ').1.take 2 = str "!:" then
    let key := (cut line ' ').1.drop 2
    if depth > 0 ∧ alook s.UserSet key = some true then
      .cont s
    else
      .cont (applyData env s key (cut line ' ').2.1 depth)
  else
    .cont { s with Builder := s.Builder.Append line }

/-- Run/abort status of a `Load`. -/
inductive Outcome where
  | ok
  | err
  | fuelOut
deriving DecidableEq, Repr

/-- Embeds `ChatState.Load(name, txt, depth)`: interpret `txt` line by
line (lines split at newlines, a final line without a newline included,
a trailing newline producing no extra line, exactly as the Go loop).
A `!profile` line resolves the profile body and interprets it at
`depth + 1` before continuing (the inlined `LoadProfile`); a failed
resolution or a failed embedded-content read aborts with an error.
The fuel bounds the total number of interpreted lines; the Go code has
no such bound and simply diverges on cyclic profile inclusion. -/
def ChatState.Load (env : Env) :
    Nat → ChatState → List Char → Nat → ChatState × Outcome
  | 0, s, _, _ => (s, .fuelOut)
  | fuel + 1, s, txt, depth =>
    if txt = [] then (s, .ok)
    else
      match lineStep env s (cut txt '\n').1 depth with
      | .cont s1 => ChatState.Load env fuel s1 (cut txt '\n').2.1 depth
      | .halt s1 => (s1, .ok)
      | .fail s1 => (s1, .err)
      | .prof s1 pname =>
        match resolveProfileBody env pname with
        | none => (s1, .err)
        | some body =>
          match ChatState.Load env fuel { s1 with Profile := pname } body
              (depth + 1) with
          | (s2, .ok) => ChatState.Load env fuel s2 (cut txt '\n').2.1 depth
          | r => r

/-- Embeds `ChatState.LoadProfile(profile, depth)`: resolve the profile
body (built-in table or file oracle), record the profile name, and
interpret the body at `depth + 1`. -/
def ChatState.LoadProfile (env : Env) (fuel : Nat) (s : ChatState)
    (profile : List Char) (depth : Nat) : ChatState × Outcome :=
  match resolveProfileBody env profile with
  | none => (s, .err)
  | some body =>
    ChatState.Load env fuel { s with Profile := profile } body (depth + 1)

/-! ## The request assembler (`query` up to the HTTP send) -/

inductive QErr where
  /-- A `Load` (or default-profile `LoadProfile`) error aborted the run. -/
  | load
  /-- The fuel bound of the model was reached. -/
  | fuelOut
  /-- Interpolating the API URL failed. -/
  | interp (e : IErr)
  /-- `parts[0]` / `Builder.New("")[0]` on an empty message list: the Go
  code panics with an index-out-of-range runtime error here. -/
  | indexPanic
  /-- Interpolating the `!infill` template failed. -/
  | fimInterp (e : IErr)
deriving DecidableEq, Repr

/-- The assembled request: URL, JSON body mapping, headers. -/
structure Request where
  api : List Char
  data : List (List Char × DataVal)
  headers : List (List Char × List Char)

/-- The mode-dependent tail of `query`: interpolate the API URL against
the body mapping, handle literal-URL quoting and trailing-slash
normalization, branch on the operation mode to finalize the message or
prompt fields, and set `stream`.  Serialization of the body and the HTTP
send are outside the model. -/
def assembleReq (env : Env) (s : ChatState) : Except QErr Request :=
  match interpolate s.Api s.Data with
  | .error e => .error (.interp e)
  | .ok api0 =>
    let strict :=
      api0.length > 2 ∧ api0.head? = some '"' ∧ api0.getLast? = some '"'
    let api1 := if strict then (api0.drop 1).dropLast else api0
    let api2 :=
      if ¬strict ∧ ¬(hasSuffixL (str "/") api1 = true) then api1 ++ str "/"
      else api1
    if s.Typ = TypeChat then
      let api3 := if ¬strict then api2 ++ str "chat/completions" else api2
      let msgs := (s.Builder.New []).2
      .ok ⟨api3,
        aset (aset s.Data (str "messages") (.msgs msgs)) (str "stream")
          (.jv (.bool true)),
        s.Headers⟩
    else if s.Typ = TypeCompletion then
      let api3 := if ¬strict then api2 ++ str "completions" else api2
      match (s.Builder.New []).2 with
      | [] => .error .indexPanic
      | m :: _ =>
        .ok ⟨api3,
          aset (aset s.Data (str "prompt") (.jv (.str m.Content)))
            (str "stream") (.jv (.bool true)),
          s.Headers⟩
    else if s.Typ = TypeInfill then
      let api3 := if ¬strict then api2 ++ str "infill" else api2
      let d1 := aset s.Data (str "prompt") (.jv (.str []))
      match (s.Builder.New []).2 with
      | [] => .error .indexPanic
      | m :: restm =>
        let d2 := aset d1 (str "input_prefix")
          (.jv (.str (m.Content ++ ['\n'])))
        let d3 :=
          match restm with
          | m2 :: _ =>
            aset d2 (str "input_suffix") (.jv (.str ('\n' :: m2.Content)))
          | [] => aset d2 (str "input_suffix") (.jv (.str []))
        .ok ⟨api3, aset d3 (str "stream") (.jv (.bool true)), s.Headers⟩
    else if s.Typ = TypeFim then
      let api3 := if ¬strict then api2 ++ str "completions" else api2
      match (s.Builder.New []).2 with
      | [] => .error .indexPanic
      | m :: restm =>
        let vars0 :=
          aset (aset ([] : List (List Char × DataVal)) (str "prefix")
              (.jv (.str (m.Content ++ ['\n']))))
            (str "suffix") (.jv (.str []))
        let vars :=
          match restm with
          | m2 :: _ =>
            aset vars0 (str "suffix") (.jv (.str ('\n' :: m2.Content)))
          | [] => vars0
        match interpolate s.FimTmpl vars with
        | .error e => .error (.fimInterp e)
        | .ok p =>
          .ok ⟨api3,
            aset (aset s.Data (str "prompt") (.jv (.str p))) (str "stream")
              (.jv (.bool true)),
            s.Headers⟩
    else
      .ok ⟨api2, aset s.Data (str "stream") (.jv (.bool true)), s.Headers⟩

/-- Embeds `query(txt)` up to (and excluding) the HTTP send: interpret
the document at depth 0; if no profile was loaded, load the default
profile (`ILLUME_PROFILE` or `llama.cpp`) at depth 1; then assemble the
request. -/
def query (env : Env) (fuel : Nat) (txt : List Char) :
    Except QErr Request :=
  let r1 := ChatState.Load env fuel NewChatState txt 0
  match r1.2 with
  | .err => .error .load
  | .fuelOut => .error .fuelOut
  | .ok =>
    let s1 := r1.1
    let r2 :=
      if s1.Profile = [] then
        let profile :=
          if env.illumeProfile = [] then DefaultProfile
          else env.illumeProfile
        ChatState.LoadProfile env fuel s1 profile 1
      else (s1, .ok)
    match r2.2 with
    | .err => .error .load
    | .fuelOut => .error .fuelOut
    | .ok => assembleReq env r2.1

/-! ## The streaming-response normalizer -/

/-- `Choices[i].Delta` of the union response schema. -/
structure RChoiceDelta where
  Content : List Char
deriving DecidableEq, Repr

/-- One element of `Response.Choices`. -/
structure RChoice where
  Text : List Char
  Delta : RChoiceDelta
deriving DecidableEq, Repr

/-- `Response.Delta`, the Anthropic-style delta block. -/
structure RDelta where
  Text : List Char
  Thinking : List Char
deriving DecidableEq, Repr

/-- The union `Response` schema decoded from every data frame. -/
structure Response where
  Content : List Char
  Choices : List RChoice
  Delta : RDelta
deriving DecidableEq, Repr

/-- The zero-valued `Response` record, which a frame whose JSON payload
fails to decode contributes (`json.Unmarshal`'s error is ignored). -/
def Response.zero : Response := ⟨[], [], ⟨[], []⟩⟩

/-- The per-frame output logic of the streaming loop: the text written
for one decoded frame, and the updated `nthinking` counter.  An opening
`<think>` marker precedes the first non-empty thinking fragment; a
closing marker precedes the first subsequent non-empty text fragment. -/
def normStep (r : Response) (nthinking : Nat) : List Char × Nat :=
  match r.Choices with
  | c :: _ =>
    (if c.Delta.Content.length > 0 then c.Delta.Content else c.Text,
     nthinking)
  | [] =>
    if r.Delta.Thinking.length > 0 then
      ((if nthinking = 0 then str "<think>\n" else []) ++ r.Delta.Thinking,
       nthinking + 1)
    else if r.Delta.Text.length > 0 then
      ((if nthinking > 0 then str "\n</think>\n\n" else []) ++ r.Delta.Text,
       0)
    else (r.Content, nthinking)

/-- Embeds the streaming read loop of `query`: scan input lines, skip
lines without the `data: ` marker, stop at the `[DONE]` sentinel, decode
every other payload under the union schema (`decode` is the
`json.Unmarshal` oracle; a failed decode leaves the zero-valued record)
and emit normalized text.  Returns the emitted text and the event count
(`nevents`). -/
def normalizeStream (decode : List Char → Option Response) :
    List (List Char) → Nat → List Char × Nat
  | [], _ => ([], 0)
  | l :: rest, nth =>
    if ¬(hasPrefixL (str "data: ") l = true) then normalizeStream decode rest nth
    else
      let p := l.drop 6
      if p = str "[DONE]" then ([], 0)
      else
        let r := (decode p).getD Response.zero
        let st := normStep r nth
        let tail := normalizeStream decode rest st.2
        (st.1 ++ tail.1, tail.2 + 1)

/-! ## Sample concrete environments, used by closed witnesses -/

/-- A concrete sample environment: no context files, no profile files
beyond the built-in table, a JSON parser that always fails (so `!:`
values are stored as literal strings), identity environment expansion,
and no `ILLUME_PROFILE` setting. -/
def env0 : Env :=
  { addctx := fun _ => ([], true),
    reddit := fun _ _ => ([], true),
    github := fun _ => ([], true),
    resolve := fun _ => none,
    jparse := fun _ => none,
    expandEnv := id,
    illumeProfile := [] }

/-- A concrete sample frame decoder: payload `P1` is a thinking frame
carrying `abc`, payload `P2` a text frame carrying `def`, everything
else fails to decode. -/
def sampleDecode : List Char → Option Response := fun p =>
  if p = str "P1" then some ⟨[], [], ⟨[], str "abc"⟩⟩
  else if p = str "P2" then some ⟨[], [], ⟨str "def", []⟩⟩
  else none

/-! ## Library lemmas about the embedded primitives -/

theorem cut_found_len (s : List Char) (b : Char) (h : (cut s b).2.2 = true) :
    ((cut s b).2.1).length < s.length := by
  induction s with
  | nil => simp [cut] at h
  | cons c cs ih =>
    by_cases hc : c = b
    · simp [cut, hc]
    · simp only [cut, if_neg hc] at h ⊢
      exact Nat.lt_succ_of_lt (ih h)

theorem cut_not_found (s : List Char) (b : Char) (h : (cut s b).2.2 = false) :
    b ∉ s ∧ (cut s b).1 = s := by
  induction s with
  | nil => simp [cut]
  | cons c cs ih =>
    by_cases hc : c = b
    · simp [cut, hc] at h
    · simp only [cut, if_neg hc] at h ⊢
      have := ih h
      refine ⟨?_, by rw [this.2]⟩
      simp only [List.mem_cons]
      rintro (h1 | h2)
      · exact hc h1.symm
      · exact this.1 h2

theorem cut_found_split (s : List Char) (b : Char) (h : (cut s b).2.2 = true) :
    s = (cut s b).1 ++ b :: (cut s b).2.1 ∧ b ∉ (cut s b).1 := by
  induction s with
  | nil => simp [cut] at h
  | cons c cs ih =>
    by_cases hc : c = b
    · simp [cut, hc]
    · simp only [cut, if_neg hc] at h ⊢
      have := ih h
      refine ⟨?_, ?_⟩
      · rw [List.cons_append]
        exact congrArg (c :: ·) this.1
      · simp only [List.mem_cons]
        rintro (h1 | h2)
        · exact hc h1.symm
        · exact this.2 h2

theorem alook_cons {α : Type} (kv : List Char × α) (l : List (List Char × α))
    (k : List Char) :
    alook (kv :: l) k = if kv.1 = k then some kv.2 else alook l k := by
  by_cases h : kv.1 = k
  · simp [alook, List.find?_cons, h]
  · simp [alook, List.find?_cons, h]

theorem alook_append {α : Type} (a b : List (List Char × α)) (k : List Char) :
    alook (a ++ b) k =
      match alook a k with
      | some v => some v
      | none => alook b k := by
  induction a with
  | nil => simp [alook]
  | cons kv rest ih =>
    by_cases h : kv.1 = k
    · simp [List.cons_append, alook_cons, h]
    · simp [List.cons_append, alook_cons, h, ih]

theorem alook_filter_self {α : Type} (l : List (List Char × α))
    (k : List Char) : alook (l.filter (fun kv => kv.1 ≠ k)) k = none := by
  induction l with
  | nil => simp [alook]
  | cons kv rest ih =>
    by_cases h : kv.1 = k
    · simpa [List.filter_cons, h] using ih
    · simpa [List.filter_cons, h, alook_cons] using ih

theorem alook_filter_ne {α : Type} (l : List (List Char × α))
    (k k' : List Char) (hne : k' ≠ k) :
    alook (l.filter (fun kv => kv.1 ≠ k)) k' = alook l k' := by
  induction l with
  | nil => simp
  | cons kv rest ih =>
    rw [List.filter_cons]
    by_cases h : kv.1 = k
    · have hk' : kv.1 ≠ k' := fun hh => hne (hh.symm.trans h)
      rw [if_neg (by simp [h]), alook_cons, if_neg hk']
      exact ih
    · rw [if_pos (by simp [h]), alook_cons, alook_cons]
      by_cases h2 : kv.1 = k'
      · rw [if_pos h2, if_pos h2]
      · rw [if_neg h2, if_neg h2]
        exact ih

theorem alook_aset_self {α : Type} (l : List (List Char × α)) (k : List Char)
    (v : α) : alook (aset l k v) k = some v := by
  unfold aset
  rw [alook_append, alook_filter_self]
  simp [alook_cons]

theorem alook_aset_ne {α : Type} (l : List (List Char × α)) (k k' : List Char)
    (v : α) (hne : k' ≠ k) : alook (aset l k v) k' = alook l k' := by
  unfold aset
  rw [alook_append, alook_filter_ne l k k' hne]
  cases h : alook l k' with
  | some w => rfl
  | none =>
    rw [alook_cons, if_neg (fun hh => hne hh.symm)]
    rfl

theorem alook_adel_self {α : Type} (l : List (List Char × α)) (k : List Char) :
    alook (adel l k) k = none := alook_filter_self l k

theorem alook_adel_ne {α : Type} (l : List (List Char × α)) (k k' : List Char)
    (hne : k' ≠ k) : alook (adel l k) k' = alook l k' :=
  alook_filter_ne l k k' hne

theorem interpolateF_irrel (fuel1 fuel2 : Nat) :
    ∀ (s : List Char) (vars : List (List Char × DataVal)),
    s.length < fuel1 → s.length < fuel2 →
    interpolateF fuel1 s vars = interpolateF fuel2 s vars := by
  induction fuel1 generalizing fuel2 with
  | zero => intro s vars h1 h2; omega
  | succ f1 ih =>
    intro s vars h1 h2
    match fuel2, h2 with
    | f2 + 1, h2 =>
      show interpolateF (f1 + 1) s vars = interpolateF (f2 + 1) s vars
      unfold interpolateF
      simp only
      by_cases hc1 : (cut s '\x7b').2.2
      · simp only [hc1, if_true]
        by_cases hc2 : (cut (cut s '\x7b').2.1 '\x7d').2.2
        · simp only [hc2, if_true]
          have hlt1 : ((cut s '\x7b').2.1).length < s.length :=
            cut_found_len s '\x7b' hc1
          have hlt2 : ((cut (cut s '\x7b').2.1 '\x7d').2.1).length <
              ((cut s '\x7b').2.1).length :=
            cut_found_len _ '\x7d' hc2
          cases alook vars (cut (cut s '\x7b').2.1 '\x7d').1 with
          | none => rfl
          | some v =>
            rw [ih f2 _ vars (by omega) (by omega)]
        · simp [hc2]
      · simp [hc1]

/-- One-step unfolding of `interpolate` in terms of itself, used for
induction on templates. -/
theorem interpolate_eq (s : List Char) (vars : List (List Char × DataVal)) :
    interpolate s vars =
      (let c1 := cut s '\x7b'
       if c1.2.2 then
         let c2 := cut c1.2.1 '\x7d'
         if c2.2.2 then
           match alook vars c2.1 with
           | none => .error (.missingKey c2.1)
           | some v =>
             match interpolate c2.2.1 vars with
             | .ok t => .ok (c1.1 ++ renderVal v ++ t)
             | .error e => .error e
         else .error .unmatched
       else .ok c1.1) := by
  unfold interpolate
  conv_lhs => rw [interpolateF]
  simp only
  by_cases hc1 : (cut s '\x7b').2.2
  · simp only [hc1, if_true]
    by_cases hc2 : (cut (cut s '\x7b').2.1 '\x7d').2.2
    · simp only [hc2, if_true]
      have hlt1 : ((cut s '\x7b').2.1).length < s.length :=
        cut_found_len s '\x7b' hc1
      have hlt2 : ((cut (cut s '\x7b').2.1 '\x7d').2.1).length <
          ((cut s '\x7b').2.1).length :=
        cut_found_len _ '\x7d' hc2
      cases alook vars (cut (cut s '\x7b').2.1 '\x7d').1 with
      | none => rfl
      | some v =>
        rw [interpolateF_irrel s.length
          ((cut (cut s '\x7b').2.1 '\x7d').2.1.length + 1) _ vars
          (by omega) (by omega)]
    · simp [hc2]
  · simp [hc1]

theorem cut_append_of_not_mem (p u : List Char) (b : Char) (hb : b ∉ p) :
    cut (p ++ b :: u) b = (p, u, true) := by
  induction p with
  | nil => simp [cut]
  | cons c cs ih =>
    have hcb : ¬(c = b) := fun h => hb (h ▸ List.mem_cons_self c cs)
    have hbcs : b ∉ cs := fun h => hb (List.mem_cons_of_mem c h)
    simp [cut, hcb, ih hbcs]

theorem hasPrefixL_append_self (p s : List Char) :
    hasPrefixL p (p ++ s) = true := by
  unfold hasPrefixL
  induction p with
  | nil => simp [List.isPrefixOf]
  | cons c cs ih => simp [List.isPrefixOf, ih]

theorem data_drop (p : List Char) : (str "data: " ++ p).drop 6 = p := rfl

/-! ## Claim theorems -/

/-- C10: every run starts from the fixed initial request state built by
`NewChatState`: the body-field mapping is exactly `max_tokens ↦ 2000`,
the header mapping is exactly `content-type ↦ application/json`, the
operation mode is chat, and the base URL is the sentinel invalid URL.
Consequently a run whose document and profiles never mention
`max_tokens` (such as the sample chat document under `env0`, whose
default `llama.cpp` profile does not set it) still sends
`max_tokens 2000` in the request body. -/
theorem C10_initial_request_state :
    NewChatState.Data = [(str "max_tokens", DataVal.jv (.num 2000))] ∧
    NewChatState.Headers = [(str "content-type", str "application/json")] ∧
    NewChatState.Typ = TypeChat ∧
    NewChatState.Api = InvalidUrl ∧
    ∃ r, query env0 64 (str "!user\nHello\n!assistant\nHi there\n") = .ok r ∧
      alook r.data (str "max_tokens") = some (DataVal.jv (.num 2000)) := by
  exact ⟨rfl, rfl, rfl, rfl, _, rfl, rfl⟩

/-- C9: when a placeholder's value in the mapping is not a string,
`interpolate` substitutes the value's `marshal` encoding, which carries
the JSON encoder's trailing newline: interpolating `\x7bk\x7d` with `k`
bound to the number 5 yields `"5\n"` (not `"5"`), and in general a
single-placeholder template whose key maps to a non-string value yields
the value's JSON encoding followed by a newline character. -/
theorem C9_nonstring_marshal_newline :
    interpolate (str "\x7bk\x7d") [(str "k", DataVal.jv (.num 5))] =
      .ok (str "5\n") ∧
    (∀ (k : List Char) (vars : List (List Char × DataVal)) (v : DataVal),
      '\x7d' ∉ k → alook vars k = some v → asGoString v = none →
      interpolate ('\x7b' :: (k ++ ['\x7d'])) vars =
        .ok (encodeData v ++ ['\n'])) := by
  refine ⟨rfl, ?_⟩
  intro k vars v hk hlook hstr
  rw [interpolate_eq]
  have hcut1 : cut ('\x7b' :: (k ++ ['\x7d'])) '\x7b' =
      ([], k ++ ['\x7d'], true) := by
    simp [cut]
  have hcut2 : cut (k ++ ['\x7d']) '\x7d' = (k, [], true) :=
    cut_append_of_not_mem k [] '\x7d' hk
  simp only [hcut1, hcut2, if_true, hlook]
  have : interpolate [] vars = .ok [] := rfl
  rw [this]
  simp [renderVal, hstr, marshal]

/-- C9 witness: the general clause applied at the concrete key `n` bound
to JSON `null`. -/
theorem C9_witness :
    interpolate ('\x7b' :: (str "n" ++ ['\x7d'])) [(str "n", DataVal.jv .null)] =
      .ok (encodeData (DataVal.jv .null) ++ ['\n']) :=
  C9_nonstring_marshal_newline.2 (str "n") [(str "n", DataVal.jv .null)]
    (DataVal.jv .null) (by decide) rfl rfl

/-- C5: a stream carrying a thinking frame `abc` then a text frame `def`
then the end-of-stream sentinel normalizes to
`"<think>\nabc\n</think>\n\ndef"`; in general the opening marker is
emitted immediately before the first non-empty thinking fragment (when
the thinking counter is zero) and the closing marker immediately before
the first subsequent non-empty text fragment (when the counter is
positive). -/
theorem C5_thinking_markup :
    (∀ (decode : List Char → Option Response) (p1 p2 : List Char),
      decode p1 = some ⟨[], [], ⟨[], str "abc"⟩⟩ →
      decode p2 = some ⟨[], [], ⟨str "def", []⟩⟩ →
      p1 ≠ str "[DONE]" → p2 ≠ str "[DONE]" →
      (normalizeStream decode
        [str "data: " ++ p1, str "data: " ++ p2,
         str "data: " ++ str "[DONE]"] 0).1 =
        str "<think>\nabc\n</think>\n\ndef") ∧
    (∀ (r : Response) (nth : Nat), r.Choices = [] →
      r.Delta.Thinking ≠ [] → nth = 0 →
      (normStep r nth).1 = str "<think>\n" ++ r.Delta.Thinking) ∧
    (∀ (r : Response) (nth : Nat), r.Choices = [] →
      r.Delta.Thinking = [] → r.Delta.Text ≠ [] → 0 < nth →
      (normStep r nth).1 = str "\n</think>\n\n" ++ r.Delta.Text) := by
  refine ⟨?_, ?_, ?_⟩
  · intro decode p1 p2 h1 h2 hp1 hp2
    simp only [normalizeStream, hasPrefixL_append_self, data_drop,
      if_neg hp1, if_neg hp2, h1, h2, Option.getD_some, normStep,
      Bool.not_eq_true, if_true]
    decide
  · intro r nth hch hth hnth
    rcases r with ⟨rc, rchs, ⟨rt, rthink⟩⟩
    simp only at hch hth
    subst hch hnth
    simp [normStep, List.length_pos, hth]
  · intro r nth hch hth htext hnth
    rcases r with ⟨rc, rchs, ⟨rt, rthink⟩⟩
    simp only at hch hth htext
    subst hch hth
    simp [normStep, List.length_pos, htext, Nat.pos_iff_ne_zero.mp hnth]

/-- C5 witness: the stream clause applied to the concrete `sampleDecode`
decoder with payloads `P1` and `P2`. -/
theorem C5_witness :
    (normalizeStream sampleDecode
      [str "data: " ++ str "P1", str "data: " ++ str "P2",
       str "data: " ++ str "[DONE]"] 0).1 =
      str "<think>\nabc\n</think>\n\ndef" :=
  C5_thinking_markup.1 sampleDecode (str "P1") (str "P2") rfl rfl
    (by decide) (by decide)

/-- C7: a data frame whose JSON payload fails to decode does not fail or
abort the stream: it decodes to the zero-valued record, contributes no
output text, leaves the reasoning-markup state unchanged, and processing
continues with the subsequent frames (the frame still counts as an
event). -/
theorem C7_decode_leniency (decode : List Char → Option Response)
    (p : List Char) (rest : List (List Char)) (nth : Nat)
    (hbad : decode p = none) (hp : p ≠ str "[DONE]") :
    normalizeStream decode ((str "data: " ++ p) :: rest) nth =
      ((normalizeStream decode rest nth).1,
       (normalizeStream decode rest nth).2 + 1) := by
  simp only [normalizeStream, hasPrefixL_append_self, data_drop,
    if_neg hp, hbad, Option.getD_none, Bool.not_eq_true]
  simp [normStep, Response.zero]

/-- C7 witness: the always-failing decoder on a single garbage frame. -/
theorem C7_witness :
    normalizeStream (fun _ => none) ((str "data: " ++ str "x") :: []) 0 =
      ((normalizeStream (fun _ => none) [] 0).1,
       (normalizeStream (fun _ => none) [] 0).2 + 1) :=
  C7_decode_leniency (fun _ => none) (str "x") [] 0 rfl (by decide)

/-- C3: tool-role transitions in `ToolRev.Builder.New`: when the previous
role is `tool` the closing `</tool_response>` marker is appended to the
segment content before trimming (so the finalized message carries the
marker-closed, trimmed content); when the NEW role is `tool` a synthetic
empty assistant message is appended immediately after the previous
segment is finalized, even when that segment was empty; and the `!tool`
directive then opens the new segment with a leading
`<tool_response>` marker line. -/
theorem C3_tool_role_transitions :
    (∀ (b : ToolRev.Builder) (role : List Char), b.Role = str "tool" →
      (b.New role).2 =
        ((if trimRN (b.Content ++ str "</tool_response>") = [] then b.Messages
          else b.Messages ++
            [{ Role := str "tool",
               Content := trimRN (b.Content ++ str "</tool_response>"),
               ToolCalls := [] }]) ++
         (if role = str "tool" then
            [{ Role := str "assistant", Content := [], ToolCalls := [] }]
          else []))) ∧
    (∀ b : ToolRev.Builder,
      (b.New (str "tool")).2 = (b.New []).2 ++
        [{ Role := str "assistant", Content := [], ToolCalls := [] }]) ∧
    (∀ b : ToolRev.Builder,
      ToolRev.toolDirective b =
        { (b.New (str "tool")).1 with Content := str "<tool_response>\n" }) := by
  refine ⟨?_, ?_, ?_⟩
  · intro b role hb
    unfold ToolRev.Builder.New
    rw [hb]
    simp only [if_pos rfl]
    have hrole : ¬(str "tool" = ([] : List Char)) := by decide
    by_cases hc : trimRN (b.Content ++ str "</tool_response>") = []
    · by_cases hr : role = str "tool" <;> simp [hc, hr]
    · by_cases hr : role = str "tool" <;> simp [hc, hr, hrole]
  · intro b
    unfold ToolRev.Builder.New
    have h1 : ¬(([] : List Char) = str "tool") := by decide
    simp [h1]
  · intro b
    unfold ToolRev.toolDirective
    simp [ToolRev.Builder.New]

/-- C3 witness: a builder holding a finished tool segment `hi`,
finalized into the `user` role. -/
theorem C3_witness :
    (ToolRev.Builder.New ⟨[], str "tool", str "hi"⟩ (str "user")).2 =
      [{ Role := str "tool", Content := str "hi</tool_response>",
         ToolCalls := [] }] := by
  have h := C3_tool_role_transitions.1 ⟨[], str "tool", str "hi"⟩
    (str "user") rfl
  rw [h]
  decide

/-- C4: the input document `!user\nHello\n!assistant\nHi there\n`
processed in chat mode (including the final flush that finalizes the
last segment with an empty role, and the default `llama.cpp` profile
loaded afterwards contributing no content lines) yields exactly the
message list `[{user, Hello}, {assistant, Hi there}]`: the initial empty
segment produces no system message.  The environment (and with it the
JSON value parser and all file oracles) is arbitrary. -/
theorem C4_chat_message_list (env : Env) (h : env.illumeProfile = []) :
    ∃ r, query env 64 (str "!user\nHello\n!assistant\nHi there\n") = .ok r ∧
      alook r.data (str "messages") =
        some (.msgs [{ Role := str "user", Content := str "Hello" },
                     { Role := str "assistant",
                       Content := str "Hi there" }]) := by
  rcases env with ⟨ac, rd, gh, rs, jp, ee, ip⟩
  dsimp only at h
  subst h
  refine ⟨_, rfl, ?_⟩
  rw [alook_aset_ne _ _ _ _ (by decide), alook_aset_self]
  rfl

/-- C4 witness: the theorem applied at the concrete environment
`env0`. -/
theorem C4_witness :
    ∃ r, query env0 64 (str "!user\nHello\n!assistant\nHi there\n") = .ok r ∧
      alook r.data (str "messages") =
        some (.msgs [{ Role := str "user", Content := str "Hello" },
                     { Role := str "assistant",
                       Content := str "Hi there" }]) :=
  C4_chat_message_list env0 rfl

/-- C8: in raw-completion, generic-infill and template-FIM modes the
request assembler reads element 0 of the finalized message list with no
emptiness guard (the Go code panics there; the model returns the
distinguished `indexPanic` outcome), so at least one non-empty trimmed
content segment is a required precondition; an input containing only
directives reaches exactly that out-of-bounds access, whereas chat mode
accepts an empty message list. -/
theorem C8_assembler_index_panic :
    (∀ (env : Env) (s : ChatState) (a : List Char),
      interpolate s.Api s.Data = .ok a →
      s.Typ = TypeCompletion ∨ s.Typ = TypeInfill ∨ s.Typ = TypeFim →
      (s.Builder.New []).2 = [] →
      assembleReq env s = .error .indexPanic) ∧
    (∀ (env : Env) (s : ChatState) (a : List Char),
      interpolate s.Api s.Data = .ok a → s.Typ = TypeChat →
      ∃ r, assembleReq env s = .ok r) ∧
    (∀ env : Env, env.illumeProfile = [] →
      query env 64 (str "!completion\n") = .error .indexPanic) := by
  refine ⟨?_, ?_, ?_⟩
  · intro env s a hint hT hmsgs
    rcases hT with hT | hT | hT <;>
      simp [assembleReq, hint, hT, hmsgs, TypeChat, TypeCompletion,
        TypeInfill, TypeFim]
  · intro env s a hint hT
    unfold assembleReq
    rw [hint, hT]
    exact ⟨_, rfl⟩
  · intro env h
    rcases env with ⟨ac, rd, gh, rs, jp, ee, ip⟩
    dsimp only at h
    subst h
    rfl

/-- C8 witness: the directive-only document `!completion` under `env0`
reaches the out-of-bounds access. -/
theorem C8_witness :
    query env0 64 (str "!completion\n") = .error .indexPanic :=
  C8_assembler_index_panic.2.2 env0 rfl

theorem ne_of_take2 (x y : List Char) (h : x.take 2 ≠ y.take 2) : x ≠ y :=
  fun he => h (he ▸ rfl)

theorem StepRes_state_ite (c : Prop) [Decidable c] (z : ChatState) :
    ((if c then StepRes.cont z else StepRes.fail z).state) = z := by
  by_cases hc : c
  · rw [if_pos hc]
    rfl
  · rw [if_neg hc]
    rfl

/-- Effect of one interpreted line on the API URL, the body mapping and
the hard-set registry, for depths ≥ 1: only the `!api` handler can touch
the URL (and it refuses once a URL is set), and only the `!:` handler
can touch the body mapping or registry (and it skips hard-set keys). -/
theorem lineStep_effects (env : Env) (s : ChatState) (line : List Char)
    (depth : Nat) (k : List Char) (hd : 1 ≤ depth) :
    (s.Api ≠ InvalidUrl → ((lineStep env s line depth).state).Api = s.Api) ∧
    (alook s.UserSet k = some true →
      alook ((lineStep env s line depth).state).Data k = alook s.Data k ∧
      alook ((lineStep env s line depth).state).UserSet k = some true) := by
  unfold lineStep
  by_cases h1 : s.Exclude ≠ [] ∧ s.Excluding = true
  · rw [if_pos h1]
    exact ⟨fun _ => rfl, fun hset => ⟨rfl, hset⟩⟩
  rw [if_neg h1]
  by_cases h2 : s.Exclude ≠ [] ∧ ¬s.Excluding = true ∧ tagmatch line s.Exclude = TagOpen
  · rw [if_pos h2]
    exact ⟨fun _ => rfl, fun hset => ⟨rfl, hset⟩⟩
  rw [if_neg h2]
  by_cases h3 : hasPrefixL (str "!!") line = true
  · rw [if_pos h3]
    exact ⟨fun _ => rfl, fun hset => ⟨rfl, hset⟩⟩
  rw [if_neg h3]
  by_cases h4 : (cut line ' ').1 = str "!profile"
  · rw [if_pos h4]
    exact ⟨fun _ => rfl, fun hset => ⟨rfl, hset⟩⟩
  rw [if_neg h4]
  by_cases h5 : (cut line ' ').1 = str "!debug"
  · rw [if_pos h5]
    exact ⟨fun _ => rfl, fun hset => ⟨rfl, hset⟩⟩
  rw [if_neg h5]
  by_cases h6 : (cut line ' ').1 = str "!stats"
  · rw [if_pos h6]
    exact ⟨fun _ => rfl, fun hset => ⟨rfl, hset⟩⟩
  rw [if_neg h6]
  by_cases h7 : (cut line ' ').1 = str "!prepend"
  · rw [if_pos h7]
    exact ⟨fun _ => rfl, fun hset => ⟨rfl, hset⟩⟩
  rw [if_neg h7]
  by_cases h8 : (cut line ' ').1 = str "!completion"
  · rw [if_pos h8]
    exact ⟨fun _ => rfl, fun hset => ⟨rfl, hset⟩⟩
  rw [if_neg h8]
  by_cases h9 : (cut line ' ').1 = str "!context"
  · rw [if_pos h9]
    dsimp only []
    rw [StepRes_state_ite]
    exact ⟨fun _ => rfl, fun hset => ⟨rfl, hset⟩⟩
  rw [if_neg h9]
  by_cases h10 : (cut line ' ').1 = str "!reddit"
  · rw [if_pos h10]
    dsimp only []
    rw [StepRes_state_ite]
    exact ⟨fun _ => rfl, fun hset => ⟨rfl, hset⟩⟩
  rw [if_neg h10]
  by_cases h11 : (cut line ' ').1 = str "!reddit!"
  · rw [if_pos h11]
    dsimp only []
    rw [StepRes_state_ite]
    exact ⟨fun _ => rfl, fun hset => ⟨rfl, hset⟩⟩
  rw [if_neg h11]
  by_cases h12 : (cut line ' ').1 = str "!github"
  · rw [if_pos h12]
    dsimp only []
    rw [StepRes_state_ite]
    exact ⟨fun _ => rfl, fun hset => ⟨rfl, hset⟩⟩
  rw [if_neg h12]
  by_cases h13 : (cut line ' ').1 = str "!note"
  · rw [if_pos h13]
    exact ⟨fun _ => rfl, fun hset => ⟨rfl, hset⟩⟩
  rw [if_neg h13]
  by_cases h14 : (cut line ' ').1 = str "!exclude"
  · rw [if_pos h14]
    exact ⟨fun _ => rfl, fun hset => ⟨rfl, hset⟩⟩
  rw [if_neg h14]
  by_cases h15 : (cut line ' ').1 = str "!begin"
  · rw [if_pos h15]
    exact ⟨fun _ => rfl, fun hset => ⟨rfl, hset⟩⟩
  rw [if_neg h15]
  by_cases h16 : (cut line ' ').1 = str "!end"
  · rw [if_pos h16]
    exact ⟨fun _ => rfl, fun hset => ⟨rfl, hset⟩⟩
  rw [if_neg h16]
  by_cases h17 : (cut line ' ').1 = str "!api"
  · rw [if_pos h17]
    refine ⟨fun hapi => ?_, fun hset => ⟨rfl, hset⟩⟩
    have hno : ¬(s.Api = InvalidUrl ∨ depth = 0) := by
      rintro (hh | hh)
      · exact hapi hh
      · omega
    simp only [StepRes.state]
    rw [if_neg hno]
  rw [if_neg h17]
  by_cases h18 : (cut line ' ').1 = str "!assistant" ∨ (cut line ' ').1 = str "!user"
  · rw [if_pos h18]
    exact ⟨fun _ => rfl, fun hset => ⟨rfl, hset⟩⟩
  rw [if_neg h18]
  by_cases h19 : (cut line ' ').1 = str "!infill"
  · rw [if_pos h19]
    by_cases ha : (cut line ' ').2.1 = []
    · rw [if_pos ha]
      exact ⟨fun _ => rfl, fun hset => ⟨rfl, hset⟩⟩
    · rw [if_neg ha]
      exact ⟨fun _ => rfl, fun hset => ⟨rfl, hset⟩⟩
  rw [if_neg h19]
  by_cases h20 : (cut line ' ').1.length > 2 ∧ (cut line ' ').1.take 2 = str "!>"
  · rw [if_pos h20]
    exact ⟨fun _ => rfl, fun hset => ⟨rfl, hset⟩⟩
  rw [if_neg h20]
  by_cases h21 : (cut line ' ').1.length > 2 ∧ (cut line ' ').1.take 2 = str "!:"
  · rw [if_pos h21]
    dsimp only []
    by_cases hg : depth > 0 ∧ alook s.UserSet ((cut line ' ').1.drop 2) = some true
    · rw [if_pos hg]
      exact ⟨fun _ => rfl, fun hset => ⟨rfl, hset⟩⟩
    · rw [if_neg hg]
      refine ⟨fun hapi => rfl, fun hset => ?_⟩
      have hne : k ≠ (cut line ' ').1.drop 2 := by
        intro he
        exact hg ⟨hd, by rw [← he]; exact hset⟩
      simp only [StepRes.state, applyData]
      refine ⟨?_, ?_⟩
      · by_cases ht : trimSpace (cut line ' ').2.1 = []
        · simp only [if_pos ht]
          exact alook_adel_ne _ _ _ hne
        · simp only [if_neg ht]
          cases env.jparse (trimSpace (cut line ' ').2.1) <;>
            exact alook_aset_ne _ _ _ _ hne
      · rw [alook_aset_ne _ _ _ _ hne]
        exact hset
  · rw [if_neg h21]
    exact ⟨fun _ => rfl, fun hset => ⟨rfl, hset⟩⟩

/-- Run-level form of the `!api` precedence rule: an interpretation pass
at depth ≥ 1 (i.e. inside any included profile, however nested) never
changes an API URL that is no longer the sentinel. -/
theorem Load_preserves_api (env : Env) :
    ∀ (fuel : Nat) (s : ChatState) (txt : List Char) (depth : Nat),
    1 ≤ depth → s.Api ≠ InvalidUrl →
    (ChatState.Load env fuel s txt depth).1.Api = s.Api := by
  intro fuel
  induction fuel with
  | zero =>
    intro s txt depth hd ha
    rfl
  | succ f ih =>
    intro s txt depth hd ha
    rw [ChatState.Load]
    by_cases htxt : txt = []
    · rw [if_pos htxt]
    · rw [if_neg htxt]
      have heff := (lineStep_effects env s (cut txt '\n').1 depth [] hd).1 ha
      rcases hstep : lineStep env s (cut txt '\n').1 depth with
        s1 | s1 | s1 | ⟨s1, pname⟩
      · rw [hstep] at heff
        simp only [StepRes.state] at heff
        show (ChatState.Load env f s1 ((cut txt '\n').2.1) depth).1.Api = s.Api
        rw [ih s1 _ depth hd (by rw [heff]; exact ha)]
        exact heff
      · rw [hstep] at heff
        simp only [StepRes.state] at heff
        exact heff
      · rw [hstep] at heff
        simp only [StepRes.state] at heff
        exact heff
      · rw [hstep] at heff
        simp only [StepRes.state] at heff
        dsimp only []
        cases hres : resolveProfileBody env pname with
        | none => exact heff
        | some body =>
          dsimp only []
          have hpa : ({ s1 with Profile := pname } : ChatState).Api = s1.Api :=
            rfl
          have h2 := ih { s1 with Profile := pname } body (depth + 1)
            (by omega) (by rw [hpa, heff]; exact ha)
          rcases hinner : ChatState.Load env f { s1 with Profile := pname }
              body (depth + 1) with ⟨s2, o⟩
          rw [hinner] at h2
          cases o with
          | ok =>
            show (ChatState.Load env f s2 ((cut txt '\n').2.1) depth).1.Api =
              s.Api
            rw [ih s2 _ depth hd (by rw [h2, hpa, heff]; exact ha)]
            rw [h2, hpa, heff]
          | err => exact h2.trans (hpa.trans heff)
          | fuelOut => exact h2.trans (hpa.trans heff)

/-- Run-level form of the override invariant: an interpretation pass at
depth ≥ 1 never changes the body-mapping entry of a hard-set key, and
leaves the key hard-set. -/
theorem Load_preserves_hard (env : Env) :
    ∀ (fuel : Nat) (s : ChatState) (txt : List Char) (depth : Nat)
      (k : List Char),
    1 ≤ depth → alook s.UserSet k = some true →
    alook (ChatState.Load env fuel s txt depth).1.Data k = alook s.Data k ∧
    alook (ChatState.Load env fuel s txt depth).1.UserSet k = some true := by
  intro fuel
  induction fuel with
  | zero =>
    intro s txt depth k hd hset
    exact ⟨rfl, hset⟩
  | succ f ih =>
    intro s txt depth k hd hset
    rw [ChatState.Load]
    by_cases htxt : txt = []
    · rw [if_pos htxt]
      exact ⟨rfl, hset⟩
    · rw [if_neg htxt]
      have heff := (lineStep_effects env s (cut txt '\n').1 depth k hd).2 hset
      rcases hstep : lineStep env s (cut txt '\n').1 depth with
        s1 | s1 | s1 | ⟨s1, pname⟩
      · rw [hstep] at heff
        simp only [StepRes.state] at heff
        show alook (ChatState.Load env f s1 ((cut txt '\n').2.1) depth).1.Data
            k = alook s.Data k ∧
          alook (ChatState.Load env f s1 ((cut txt '\n').2.1) depth).1.UserSet
            k = some true
        have hrec := ih s1 ((cut txt '\n').2.1) depth k hd heff.2
        exact ⟨hrec.1.trans heff.1, hrec.2⟩
      · rw [hstep] at heff
        simp only [StepRes.state] at heff
        exact heff
      · rw [hstep] at heff
        simp only [StepRes.state] at heff
        exact heff
      · rw [hstep] at heff
        simp only [StepRes.state] at heff
        dsimp only []
        cases hres : resolveProfileBody env pname with
        | none => exact heff
        | some body =>
          dsimp only []
          have hpd : ({ s1 with Profile := pname } : ChatState).Data =
              s1.Data := rfl
          have hpu : ({ s1 with Profile := pname } : ChatState).UserSet =
              s1.UserSet := rfl
          have h2 := ih { s1 with Profile := pname } body (depth + 1) k
            (by omega) (by rw [hpu]; exact heff.2)
          rcases hinner : ChatState.Load env f { s1 with Profile := pname }
              body (depth + 1) with ⟨s2, o⟩
          rw [hinner] at h2
          cases o with
          | ok =>
            show alook (ChatState.Load env f s2 ((cut txt '\n').2.1)
                depth).1.Data k = alook s.Data k ∧
              alook (ChatState.Load env f s2 ((cut txt '\n').2.1)
                depth).1.UserSet k = some true
            have hrec := ih s2 ((cut txt '\n').2.1) depth k hd h2.2
            refine ⟨?_, hrec.2⟩
            rw [hrec.1, h2.1, hpd, heff.1]
          | err =>
            refine ⟨?_, h2.2⟩
            show alook s2.Data k = alook s.Data k
            rw [h2.1, hpd, heff.1]
          | fuelOut =>
            refine ⟨?_, h2.2⟩
            show alook s2.Data k = alook s.Data k
            rw [h2.1, hpd, heff.1]

theorem cut_append_fst (p u : List Char) (b : Char) (hb : b ∉ p) :
    (cut (p ++ b :: u) b).1 = p := by
  rw [cut_append_of_not_mem p u b hb]

theorem cut_append_snd (p u : List Char) (b : Char) (hb : b ∉ p) :
    (cut (p ++ b :: u) b).2.1 = u := by
  rw [cut_append_of_not_mem p u b hb]

/-- Characterization of one `!:key value` line (key without spaces, at
any depth, outside any exclusion block): it reaches exactly the `!:`
handler, whose override guard skips hard-set keys at depth > 0 and
otherwise applies `applyData`. -/
theorem lineStep_bodyfield (env : Env) (s : ChatState) (k v : List Char)
    (depth : Nat) (hex : s.Exclude = []) (hk : k ≠ []) (hsp : ' ' ∉ k) :
    lineStep env s (('!' :: ':' :: k) ++ ' ' :: v) depth =
      if depth > 0 ∧ alook s.UserSet k = some true then .cont s
      else .cont (applyData env s k v depth) := by
  have hspc : ' ' ∉ ('!' :: ':' :: k) := by
    simp only [List.mem_cons]
    rintro (h | h | h)
    · exact absurd h (by decide)
    · exact absurd h (by decide)
    · exact hsp h
  have hlen : ('!' :: ':' :: k).length > 2 := by
    simp only [List.length_cons]
    have := List.length_pos.mpr hk
    omega
  have h1 : ¬(s.Exclude ≠ [] ∧ s.Excluding = true) := by
    rw [hex]
    simp
  have h2 : ¬(s.Exclude ≠ [] ∧ ¬s.Excluding = true ∧
      tagmatch (('!' :: ':' :: k) ++ ' ' :: v) s.Exclude = TagOpen) := by
    rw [hex]
    simp
  have h3 : ¬(hasPrefixL (str "!!") (('!' :: ':' :: k) ++ ' ' :: v) = true) :=
    of_decide_eq_false rfl
  have h4 : ¬(('!' :: ':' :: k) = str "!profile") := of_decide_eq_false rfl
  have h5 : ¬(('!' :: ':' :: k) = str "!debug") := of_decide_eq_false rfl
  have h6 : ¬(('!' :: ':' :: k) = str "!stats") := of_decide_eq_false rfl
  have h7 : ¬(('!' :: ':' :: k) = str "!prepend") := of_decide_eq_false rfl
  have h8 : ¬(('!' :: ':' :: k) = str "!completion") := of_decide_eq_false rfl
  have h9 : ¬(('!' :: ':' :: k) = str "!context") := of_decide_eq_false rfl
  have h10 : ¬(('!' :: ':' :: k) = str "!reddit") := of_decide_eq_false rfl
  have h11 : ¬(('!' :: ':' :: k) = str "!reddit!") := of_decide_eq_false rfl
  have h12 : ¬(('!' :: ':' :: k) = str "!github") := of_decide_eq_false rfl
  have h13 : ¬(('!' :: ':' :: k) = str "!note") := of_decide_eq_false rfl
  have h14 : ¬(('!' :: ':' :: k) = str "!exclude") := of_decide_eq_false rfl
  have h15 : ¬(('!' :: ':' :: k) = str "!begin") := of_decide_eq_false rfl
  have h16 : ¬(('!' :: ':' :: k) = str "!end") := of_decide_eq_false rfl
  have h17 : ¬(('!' :: ':' :: k) = str "!api") := of_decide_eq_false rfl
  have h18 : ¬(('!' :: ':' :: k) = str "!assistant" ∨
      ('!' :: ':' :: k) = str "!user") := of_decide_eq_false rfl
  have h19 : ¬(('!' :: ':' :: k) = str "!infill") := of_decide_eq_false rfl
  have h20b : ¬(('!' :: ':' :: k).take 2 = str "!>") := of_decide_eq_false rfl
  have h21b : ('!' :: ':' :: k).take 2 = str "!:" := of_decide_eq_true rfl
  unfold lineStep
  rw [cut_append_fst ('!' :: ':' :: k) v ' ' hspc,
    cut_append_snd ('!' :: ':' :: k) v ' ' hspc]
  rw [if_neg h1, if_neg h2, if_neg h3, if_neg h4, if_neg h5, if_neg h6,
    if_neg h7, if_neg h8, if_neg h9, if_neg h10, if_neg h11, if_neg h12,
    if_neg h13, if_neg h14, if_neg h15, if_neg h16, if_neg h17, if_neg h18,
    if_neg h19, if_neg (fun hc => h20b hc.2), if_pos ⟨hlen, h21b⟩]
  rfl

/-- C1: the override invariant.  (i) A `!:key value` directive processed
at depth 0 marks the key hard-set in the registry.  (ii) Once a key is
hard-set, interpreting any text at any depth ≥ 1 (any profile, any
inclusion order or nesting) leaves both its body-mapping entry and its
hard-set mark unchanged — in particular no `!:` directive in a profile
can change or delete it.  (iii) A key that is not hard-set (set only at
depth > 0, or never) is freely overridable: a `!:key value` directive at
any depth stores the new value and re-records the hard-set mark as
`depth == 0`. -/
theorem C1_override_invariant :
    (∀ (env : Env) (s : ChatState) (k v : List Char),
      s.Exclude = [] → k ≠ [] → ' ' ∉ k →
      ∃ s1, lineStep env s (('!' :: ':' :: k) ++ ' ' :: v) 0 = .cont s1 ∧
        alook s1.UserSet k = some true) ∧
    (∀ (env : Env) (fuel : Nat) (s : ChatState) (txt : List Char)
       (depth : Nat) (k : List Char),
      1 ≤ depth → alook s.UserSet k = some true →
      alook (ChatState.Load env fuel s txt depth).1.Data k =
        alook s.Data k ∧
      alook (ChatState.Load env fuel s txt depth).1.UserSet k = some true) ∧
    (∀ (env : Env) (s : ChatState) (k v : List Char) (depth : Nat),
      s.Exclude = [] → k ≠ [] → ' ' ∉ k →
      alook s.UserSet k ≠ some true → trimSpace v ≠ [] →
      ∃ s1,
        lineStep env s (('!' :: ':' :: k) ++ ' ' :: v) depth = .cont s1 ∧
        alook s1.Data k =
          some (match env.jparse (trimSpace v) with
                | some jv => DataVal.jv jv
                | none => DataVal.jv (.str (trimSpace v))) ∧
        alook s1.UserSet k = some (depth == 0)) := by
  refine ⟨?_, ?_, ?_⟩
  · intro env s k v hex hk hsp
    rw [lineStep_bodyfield env s k v 0 hex hk hsp]
    rw [if_neg (by simp)]
    refine ⟨applyData env s k v 0, rfl, ?_⟩
    show alook (aset s.UserSet k ((0 : Nat) == 0)) k = some true
    exact alook_aset_self s.UserSet k ((0 : Nat) == 0)
  · intro env fuel s txt depth k hd hset
    exact Load_preserves_hard env fuel s txt depth k hd hset
  · intro env s k v depth hex hk hsp hnot htrim
    rw [lineStep_bodyfield env s k v depth hex hk hsp]
    rw [if_neg (fun hc => hnot hc.2)]
    refine ⟨applyData env s k v depth, rfl, ?_, ?_⟩
    · show alook (if trimSpace v = [] then adel s.Data k
        else match env.jparse (trimSpace v) with
             | some jv => aset s.Data k (.jv jv)
             | none => aset s.Data k (.jv (.str (trimSpace v)))) k = _
      rw [if_neg htrim]
      cases env.jparse (trimSpace v) with
      | none => exact alook_aset_self _ _ _
      | some jv => exact alook_aset_self _ _ _
    · show alook (aset s.UserSet k (depth == 0)) k = some (depth == 0)
      exact alook_aset_self _ _ _

/-- C1 witness: the run-level clause applied at `env0`, fuel 8, a state
whose `max_tokens` key is hard-set, a profile body that tries
`!:max_tokens 9` at depth 1. -/
theorem C1_witness :
    alook (ChatState.Load env0 8
        { NewChatState with UserSet := [(str "max_tokens", true)] }
        (str "!:max_tokens 9") 1).1.Data (str "max_tokens") =
      alook ({ NewChatState with
        UserSet := [(str "max_tokens", true)] } : ChatState).Data
        (str "max_tokens") ∧
    alook (ChatState.Load env0 8
        { NewChatState with UserSet := [(str "max_tokens", true)] }
        (str "!:max_tokens 9") 1).1.UserSet (str "max_tokens") =
      some true :=
  C1_override_invariant.2.1 env0 8
    { NewChatState with UserSet := [(str "max_tokens", true)] }
    (str "!:max_tokens 9") 1 (str "max_tokens") (by decide) (by decide)

/-- C6: API base URL precedence: an `!api` directive stores its argument
if and only if no URL has been set yet (the URL still equals the initial
sentinel) or the directive is processed at depth 0 — otherwise the URL is
left unchanged; consequently among profiles (depth ≥ 1) the first `!api`
wins: once the URL is set, no pass at depth ≥ 1 can change it, while a
depth-0 `!api` always takes effect. -/
theorem C6_api_precedence :
    (∀ (env : Env) (s : ChatState) (u : List Char) (depth : Nat),
      s.Exclude = [] →
      lineStep env s (str "!api " ++ u) depth =
        .cont { s with Api :=
          if s.Api = InvalidUrl ∨ depth = 0 then trimSpace u
          else s.Api }) ∧
    (∀ (env : Env) (fuel : Nat) (s : ChatState) (txt : List Char)
       (depth : Nat),
      1 ≤ depth → s.Api ≠ InvalidUrl →
      (ChatState.Load env fuel s txt depth).1.Api = s.Api) := by
  refine ⟨?_, ?_⟩
  · intro env s u depth hex
    rcases s with ⟨pf, api, fim, prep, excl, bld, data, us, hdr, typ, dbg,
      st, exc⟩
    dsimp only at hex
    subst hex
    rfl
  · intro env fuel s txt depth hd ha
    exact Load_preserves_api env fuel s txt depth hd ha

/-- C6 witness: the step clause applied at `env0` on the initial state at
depth 1 (URL still the sentinel, so the assignment happens), and the
run-level clause on a state with a URL already set. -/
theorem C6_witness :
    lineStep env0 NewChatState (str "!api " ++ str "http://x/") 1 =
      .cont { NewChatState with Api :=
        if NewChatState.Api = InvalidUrl ∨ 1 = 0 then trimSpace (str "http://x/")
        else NewChatState.Api } ∧
    (ChatState.Load env0 8 { NewChatState with Api := str "u" }
        (str "!api v") 1).1.Api =
      ({ NewChatState with Api := str "u" } : ChatState).Api :=
  ⟨C6_api_precedence.1 env0 NewChatState (str "http://x/") 1 rfl,
   C6_api_precedence.2 env0 8 { NewChatState with Api := str "u" }
     (str "!api v") 1 (by decide) (by decide)⟩

theorem alook_some_mem {α : Type} (l : List (List Char × α)) (k : List Char)
    (v : α) (h : alook l k = some v) : ∃ kv, kv ∈ l ∧ kv.1 = k := by
  unfold alook at h
  cases hf : l.find? (fun kv => kv.1 = k) with
  | none => rw [hf] at h; cases h
  | some kv =>
    refine ⟨kv, List.mem_of_find?_eq_some hf, ?_⟩
    have := List.find?_some hf
    exact of_decide_eq_true this

/-- An infix whose first character does not occur in `xs` lies entirely
within the remainder `tail`. -/
theorem infix_past (xs mid tail : List Char) (c : Char) (hx : c ∉ xs)
    (h : (c :: mid) <:+: (xs ++ tail)) : (c :: mid) <:+: tail := by
  induction xs with
  | nil => simpa using h
  | cons x xs' ih =>
    rw [List.cons_append, List.infix_cons_iff] at h
    rcases h with hp | hi
    · rw [List.cons_prefix_cons] at hp
      exact absurd hp.1.symm (fun he => hx (he ▸ List.mem_cons_self x xs'))
    · exact ih (fun hm => hx (List.mem_cons_of_mem x hm)) hi

/-- Two close-brace-free keys followed by a close brace: if one is a
prefix of the other's span, the keys are equal. -/
theorem prefix_key_eq (k key s2 : List Char) (b : Char) (hk : b ∉ k)
    (hkey : b ∉ key) (h : (k ++ [b]) <+: (key ++ b :: s2)) : k = key := by
  induction k generalizing key with
  | nil =>
    cases key with
    | nil => rfl
    | cons c key' =>
      rw [List.nil_append, List.cons_append, List.cons_prefix_cons] at h
      exact absurd h.1.symm
        (fun he => hkey (he ▸ List.mem_cons_self c key'))
  | cons a k' ih =>
    cases key with
    | nil =>
      rw [List.nil_append, List.cons_append, List.cons_prefix_cons] at h
      exact absurd h.1 (fun he => hk (he ▸ List.mem_cons_self a k'))
    | cons c key' =>
      rw [List.cons_append, List.cons_append, List.cons_prefix_cons] at h
      have hk' : b ∉ k' := fun hm => hk (List.mem_cons_of_mem a hm)
      have hkey' : b ∉ key' := fun hm => hkey (List.mem_cons_of_mem c hm)
      rw [h.1, ih key' hk' hkey' h.2]

/-- A template containing a placeholder span for a key that is absent
from a brace-free-keyed mapping always fails interpolation with a
missing-key error (possibly for an earlier absent key). -/
theorem interpolate_missing (n : Nat) :
    ∀ (tmpl : List Char) (vars : List (List Char × DataVal)) (k : List Char),
    tmpl.length ≤ n →
    '\x7b' ∉ k → '\x7d' ∉ k →
    ('\x7b' :: (k ++ ['\x7d'])) <:+: tmpl →
    alook vars k = none →
    (∀ kv, kv ∈ vars → '\x7b' ∉ kv.1) →
    ∃ k2, interpolate tmpl vars = .error (.missingKey k2) := by
  induction n with
  | zero =>
    intro tmpl vars k hlen hk1 hk2 hinf hlook hvars
    have : tmpl = [] := List.length_eq_zero.mp (Nat.le_zero.mp hlen)
    subst this
    rcases hinf with ⟨t, u, ht⟩
    exact absurd ht.symm (by simp)
  | succ n ih =>
    intro tmpl vars k hlen hk1 hk2 hinf hlook hvars
    rw [interpolate_eq]
    by_cases hc1 : (cut tmpl '\x7b').2.2 = true
    · have hsplit := cut_found_split tmpl '\x7b' hc1
      have hinf2 : ('\x7b' :: (k ++ ['\x7d'])) <:+:
          ('\x7b' :: (cut tmpl '\x7b').2.1) := by
        apply infix_past (cut tmpl '\x7b').1 _ _ '\x7b' hsplit.2
        rw [← hsplit.1]
        exact hinf
      by_cases hc2 : (cut (cut tmpl '\x7b').2.1 '\x7d').2.2 = true
      · have hsplit2 := cut_found_split (cut tmpl '\x7b').2.1 '\x7d' hc2
        simp only [hc1, hc2, if_true]
        cases halook : alook vars (cut (cut tmpl '\x7b').2.1 '\x7d').1 with
        | none => exact ⟨_, rfl⟩
        | some v =>
          obtain ⟨kv, hmem, hkv⟩ :=
            alook_some_mem vars _ v halook
          have hkeynob : '\x7b' ∉ (cut (cut tmpl '\x7b').2.1 '\x7d').1 := by
            rw [← hkv]
            exact hvars kv hmem
          rcases List.infix_cons_iff.mp hinf2 with hp | hi
          · rw [List.cons_prefix_cons] at hp
            have hpre2 := hp.2
            rw [hsplit2.1] at hpre2
            have hkeq := prefix_key_eq k
              (cut (cut tmpl '\x7b').2.1 '\x7d').1
              (cut (cut tmpl '\x7b').2.1 '\x7d').2.1 '\x7d' hk2
              hsplit2.2 hpre2
            rw [← hkeq, hlook] at halook
            cases halook
          · have hinf3 : ('\x7b' :: (k ++ ['\x7d'])) <:+:
                (cut (cut tmpl '\x7b').2.1 '\x7d').2.1 := by
              apply infix_past
                ((cut (cut tmpl '\x7b').2.1 '\x7d').1 ++ ['\x7d']) _ _
                '\x7b'
              · intro hm
                rcases List.mem_append.mp hm with hm1 | hm1
                · exact hkeynob hm1
                · simp at hm1
              · rw [List.append_assoc, List.singleton_append, ← hsplit2.1]
                exact hi
            have hlt1 : ((cut tmpl '\x7b').2.1).length < tmpl.length :=
              cut_found_len tmpl '\x7b' hc1
            have hlt2 :
                ((cut (cut tmpl '\x7b').2.1 '\x7d').2.1).length <
                  ((cut tmpl '\x7b').2.1).length :=
              cut_found_len _ '\x7d' hc2
            obtain ⟨k2, hk2eq⟩ := ih (cut (cut tmpl '\x7b').2.1 '\x7d').2.1
              vars k (by omega) hk1 hk2 hinf3 hlook hvars
            rw [hk2eq]
            exact ⟨k2, rfl⟩
      · exfalso
        have hmem : '\x7d' ∈ ('\x7b' :: (cut tmpl '\x7b').2.1) :=
          hinf2.subset (by simp)
        rcases List.mem_cons.mp hmem with hm | hm
        · exact absurd hm (by decide)
        · exact absurd hm ((cut_not_found _ '\x7d'
            (Bool.not_eq_true _ ▸ hc2 : (cut (cut tmpl '\x7b').2.1
              '\x7d').2.2 = false)).1)
    · exfalso
      have hmem : '\x7b' ∈ tmpl := hinf.subset (by simp)
      exact absurd hmem ((cut_not_found tmpl '\x7b'
        (Bool.not_eq_true _ ▸ hc1 : (cut tmpl '\x7b').2.2 = false)).1)

/-- C2: interpolation behaviour.  (i) Interpolating `\x7ba\x7d/\x7bb\x7d`
with the mapping `a ↦ "x", b ↦ "y"` yields `"x/y"`.  (ii) Interpolating
any template that references key `b` (contains the span `\x7bb\x7d`; the
clause is proved for an arbitrary brace-free key) when that key is absent
from a brace-free-keyed mapping fails with a missing-key error.
(iii) Interpolating `\x7ba` (an opening brace with no closing brace)
fails with the unmatched-brace error. -/
theorem C2_interpolate_contract :
    interpolate (str "\x7ba\x7d/\x7bb\x7d")
      [(str "a", DataVal.jv (.str (str "x"))),
       (str "b", DataVal.jv (.str (str "y")))] = .ok (str "x/y") ∧
    (∀ (tmpl : List Char) (vars : List (List Char × DataVal))
       (k : List Char),
      '\x7b' ∉ k → '\x7d' ∉ k →
      ('\x7b' :: (k ++ ['\x7d'])) <:+: tmpl →
      alook vars k = none →
      (∀ kv, kv ∈ vars → '\x7b' ∉ kv.1) →
      ∃ k2, interpolate tmpl vars = .error (.missingKey k2)) ∧
    interpolate (str "\x7ba")
      [(str "a", DataVal.jv (.str (str "x"))),
       (str "b", DataVal.jv (.str (str "y")))] = .error .unmatched := by
  refine ⟨rfl, ?_, rfl⟩
  intro tmpl vars k hk1 hk2 hinf hlook hvars
  exact interpolate_missing tmpl.length tmpl vars k (Nat.le_refl _) hk1 hk2
    hinf hlook hvars

/-- C2 witness: the missing-key clause applied to the concrete template
`x\x7bb\x7d` with a mapping that binds only `a`. -/
theorem C2_witness :
    ∃ k2, interpolate (str "x\x7bb\x7d")
      [(str "a", DataVal.jv (.str (str "x")))] =
        .error (.missingKey k2) :=
  C2_interpolate_contract.2.1 (str "x\x7bb\x7d")
    [(str "a", DataVal.jv (.str (str "x")))] (str "b")
    (by decide) (by decide) (by decide) rfl (by decide)
